import Mathlib

/-!
# Verification of the ALT store (`store.rs`, `rpc_loader.rs`)

A shallow embedding of the address-lookup-table cache store:

* the persisted-file layer (`load_or_create` / `load_from_path` /
  `save_to_path`) over a byte-level model of the bincode encoding of
  `HashMap<Pubkey, Vec<u8>>` (fixed-width little-endian `u64` length
  prefixes, 32 raw bytes per `Pubkey`, length-prefixed `Vec<u8>` values);
* the update layer (`contains_key`, `insert_table_data`, `update`) with the
  Data Source fetch passed in as a function argument and the observable
  effects (fetch calls issued, save performed) recorded in the result;
* the resolver (`load_addresses` from the `AddressLoader` impl), with
  `AddressLookupTable::deserialize` — a dependency of the crate, not part of
  it — kept abstract as a `deserialize` function argument.

Bytes are modeled as `Nat` (values produced by the encoders are `< 256`);
the `HashMap` is modeled as an association list carrying the map's
iteration order, with `lookupData` as the lookup.
-/

namespace AltStore

/-- A Solana `Pubkey`: 32 raw bytes, modeled as a byte list. -/
abbrev Pubkey := List Nat

/-- Raw account data (`Vec<u8>`). -/
abbrev AccountData := List Nat

/-- The `StoreInner` mapping `HashMap<Pubkey, Vec<u8>>`, as an association
list in iteration order. -/
abbrev Mapping := List (Pubkey × AccountData)

/-- Content of the backing file. -/
abbrev FileContent := List Nat

/-! ## Bincode encoding model -/

/-- Little-endian fixed-width `u64`, as bincode 1.x writes lengths. -/
def u64le (n : Nat) : List Nat :=
  [n % 256, n / 256 % 256, n / 65536 % 256, n / 16777216 % 256,
   n / 4294967296 % 256, n / 1099511627776 % 256,
   n / 281474976710656 % 256, n / 72057594037927936 % 256]

/-- Read a little-endian `u64` off the front of a byte stream. -/
def readU64 : List Nat → Option (Nat × List Nat)
  | b0 :: b1 :: b2 :: b3 :: b4 :: b5 :: b6 :: b7 :: rest =>
      some (b0 + 256 * b1 + 65536 * b2 + 16777216 * b3 + 4294967296 * b4
              + 1099511627776 * b5 + 281474976710656 * b6
              + 72057594037927936 * b7, rest)
  | _ => none

/-- Read a 32-byte `Pubkey` off the front of a byte stream. -/
def readKey (bs : List Nat) : Option (Pubkey × List Nat) :=
  if 32 ≤ bs.length then some (bs.take 32, bs.drop 32) else none

/-- Read a length-prefixed `Vec<u8>` off the front of a byte stream. -/
def readBytes (bs : List Nat) : Option (AccountData × List Nat) :=
  match readU64 bs with
  | none => none
  | some (len, rest) =>
      if len ≤ rest.length then some (rest.take len, rest.drop len) else none

/-- Read `n` map entries off the front of a byte stream. -/
def readEntries : Nat → List Nat → Option (Mapping × List Nat)
  | 0, bs => some ([], bs)
  | n + 1, bs =>
      match readKey bs with
      | none => none
      | some (k, bs1) =>
          match readBytes bs1 with
          | none => none
          | some (d, bs2) =>
              match readEntries n bs2 with
              | none => none
              | some (es, bs3) => some ((k, d) :: es, bs3)

/-- Bincode encoding of one map entry: key bytes, then length-prefixed data. -/
def encodeEntry (e : Pubkey × AccountData) : List Nat :=
  e.1 ++ u64le e.2.length ++ e.2

/-- Bincode encoding of the whole `StoreInner` map: entry count, then
entries in iteration order. -/
def encodeStoreInner (m : Mapping) : List Nat :=
  u64le m.length ++ (m.map encodeEntry).flatten

/-- `bincode::deserialize_from` for `StoreInner`: reads one value off the
front of the stream and returns the unread remainder (bincode does not
require the reader to be exhausted). -/
def readStoreInner (bs : List Nat) : Option (Mapping × List Nat) :=
  match readU64 bs with
  | none => none
  | some (n, rest) => readEntries n rest

/-- Well-formedness matching the real data: a `Pubkey` is 32 bytes and all
bincode length prefixes fit in a `u64`. -/
def WFMapping (m : Mapping) : Prop :=
  m.length < 2 ^ 64 ∧ ∀ e ∈ m, e.1.length = 32 ∧ e.2.length < 2 ^ 64

/-! ## Store file operations (`store.rs` IO impl) -/

/-- `new_with_path`: `std::fs::write(path, &[])` creates an empty file. -/
def new_file_content : FileContent := []

/-- `save_to_path`: the file is opened with `write(true).append(false)` and
written from offset 0 **without truncation**, so bytes of the previous
content beyond the new serialization's length remain in place. -/
def save_to_path (m : Mapping) (old : FileContent) : FileContent :=
  encodeStoreInner m ++ old.drop (encodeStoreInner m).length

/-- `load_from_path`: deserialize the file's content; `none` models the
deserialization error (`StoreCorrupt`). -/
def load_from_path (content : FileContent) : Option Mapping :=
  (readStoreInner content).map Prod.fst

/-- Errors of the store's IO layer. -/
inductive StoreError
  | storeCorrupt
  deriving DecidableEq, Repr

/-- `load_or_create`: `none` models a path whose file does not exist (the
store is created empty and an empty file is written); `some c` models an
existing file with content `c`. Returns the in-memory mapping together
with the resulting file content. -/
def load_or_create : Option FileContent → Except StoreError (Mapping × FileContent)
  | none => .ok ([], new_file_content)
  | some c =>
      match load_from_path c with
      | none => .error .storeCorrupt
      | some m => .ok (m, c)

/-! ## Mapping operations (`store.rs` update impl) -/

/-- `HashMap::get` on the modeled mapping. -/
def lookupData : Mapping → Pubkey → Option AccountData
  | [], _ => none
  | (k', d) :: rest, k => if k' = k then some d else lookupData rest k

/-- `Store::contains_key`. -/
def contains_key (m : Mapping) (k : Pubkey) : Bool :=
  (lookupData m k).isSome

/-- `Store::insert_table_data` (`HashMap::insert`): replace the entry for
`k` if present, otherwise add one. -/
def insert_table_data : Mapping → Pubkey → AccountData → Mapping
  | [], k, d => [(k, d)]
  | (k', d') :: rest, k, d =>
      if k' = k then (k, d) :: rest else (k', d') :: insert_table_data rest k d

/-- The merge loop of `update`: insert every fetched `(pubkey, data)` pair. -/
def insertAll (m : Mapping) : List (Pubkey × AccountData) → Mapping
  | [] => m
  | (k, d) :: rest => insertAll (insert_table_data m k d) rest

/-- `UpdateMode`. -/
inductive UpdateMode
  | append
  | overwrite
  deriving DecidableEq, Repr

/-- The fetch set `update` computes: in `Append` mode the keys not already
present, in `Overwrite` mode all keys. -/
def fetch_set (m : Mapping) (pubkeys : List Pubkey) : UpdateMode → List Pubkey
  | .append => pubkeys.filter (fun p => !contains_key m p)
  | .overwrite => pubkeys

/-- Result of an `update` call: the returned value, the mapping and file
afterwards, the argument of every Data Source call issued, and whether
`save_to_path` ran. -/
structure UpdateOut (ε : Type) where
  result : Except ε Unit
  store : Mapping
  file : FileContent
  calls : List (List Pubkey)
  saved : Bool
  deriving Repr

/-- `Store::update`: compute the fetch set; if nonempty, call the Data
Source (`load_address_lookup_tables`, passed in as `fetch`), merge every
returned pair, and save; a fetch error returns early with the store and
file untouched. -/
def update {ε : Type} (fetch : List Pubkey → Except ε (List (Pubkey × AccountData)))
    (m : Mapping) (file : FileContent) (pubkeys : List Pubkey)
    (mode : UpdateMode) : UpdateOut ε :=
  let fetchPubkeys := fetch_set m pubkeys mode
  if fetchPubkeys.isEmpty then
    ⟨.ok (), m, file, [], false⟩
  else
    match fetch fetchPubkeys with
    | .error e => ⟨.error e, m, file, [fetchPubkeys], false⟩
    | .ok fetched =>
        let m' := insertAll m fetched
        ⟨.ok (), m', save_to_path m' file, [fetchPubkeys], true⟩

/-! ## Resolver (`AddressLoader` impl) -/

/-- `MessageAddressTableLookup`. -/
structure MessageAddressTableLookup where
  account_key : Pubkey
  writable_indexes : List Nat
  readonly_indexes : List Nat

/-- `LoadedAddresses`. -/
structure LoadedAddresses where
  writable : List Pubkey
  readonly : List Pubkey
  deriving DecidableEq, Repr

/-- `AddressLoaderError` (the three variants `load_addresses` produces). -/
inductive AddressLoaderError
  | lookupTableAccountNotFound
  | invalidAccountData
  | invalidLookupIndex
  deriving DecidableEq, Repr

/-- The deserialized view of a lookup table that `load_addresses` uses:
its ordered address sequence. `AddressLookupTable::deserialize` itself
belongs to `solana_sdk`, so resolver theorems quantify over the
deserializer; `none` models its `Err` case. -/
abbrev Deserializer := AccountData → Option (List Pubkey)

/-- One index loop of `load_addresses`: look up each index in the table's
address sequence in order, failing with `InvalidLookupIndex` on the first
index at or past the end. -/
def pickAddrs (addrs : List Pubkey) : List Nat → Except AddressLoaderError (List Pubkey)
  | [] => .ok []
  | i :: rest =>
      match addrs[i]? with
      | none => .error .invalidLookupIndex
      | some a =>
          match pickAddrs addrs rest with
          | .error e => .error e
          | .ok tail => .ok (a :: tail)

/-- The body of `load_addresses`' request loop for one lookup: table
lookup, deserialization, then the writable and readonly index loops. -/
def resolveOne (m : Mapping) (deserialize : Deserializer)
    (l : MessageAddressTableLookup) :
    Except AddressLoaderError (List Pubkey × List Pubkey) :=
  match lookupData m l.account_key with
  | none => .error .lookupTableAccountNotFound
  | some data =>
      match deserialize data with
      | none => .error .invalidAccountData
      | some addrs =>
          match pickAddrs addrs l.writable_indexes with
          | .error e => .error e
          | .ok ws =>
              match pickAddrs addrs l.readonly_indexes with
              | .error e => .error e
              | .ok rs => .ok (ws, rs)

/-- The request loop of `load_addresses`, with the `writable` and
`readonly` accumulator vectors made explicit. -/
def load_addresses_go (m : Mapping) (deserialize : Deserializer) :
    List MessageAddressTableLookup → List Pubkey → List Pubkey →
    Except AddressLoaderError LoadedAddresses
  | [], w, r => .ok ⟨w, r⟩
  | l :: rest, w, r =>
      match resolveOne m deserialize l with
      | .error e => .error e
      | .ok (ws, rs) => load_addresses_go m deserialize rest (w ++ ws) (r ++ rs)

/-- `<&Store as AddressLoader>::load_addresses`. -/
def load_addresses (m : Mapping) (deserialize : Deserializer)
    (lookups : List MessageAddressTableLookup) :
    Except AddressLoaderError LoadedAddresses :=
  load_addresses_go m deserialize lookups [] []

/-- The addresses one lookup request selects from its table with its
writable indexes, in index order (empty when the table is missing or does
not deserialize). -/
def resolvedWritable (m : Mapping) (deserialize : Deserializer)
    (l : MessageAddressTableLookup) : List Pubkey :=
  match lookupData m l.account_key with
  | none => []
  | some data =>
      match deserialize data with
      | none => []
      | some addrs => l.writable_indexes.filterMap (fun i => addrs[i]?)

/-- The addresses one lookup request selects with its readonly indexes. -/
def resolvedReadonly (m : Mapping) (deserialize : Deserializer)
    (l : MessageAddressTableLookup) : List Pubkey :=
  match lookupData m l.account_key with
  | none => []
  | some data =>
      match deserialize data with
      | none => []
      | some addrs => l.readonly_indexes.filterMap (fun i => addrs[i]?)

/-! ## Round-trip lemmas for the encoding -/

theorem readU64_u64le (n : Nat) (h : n < 2 ^ 64) (rest : List Nat) :
    readU64 (u64le n ++ rest) = some (n, rest) := by
  simp only [u64le, readU64, List.cons_append, List.nil_append,
    Option.some.injEq, Prod.mk.injEq, and_true]
  omega

theorem readKey_encode (k : Pubkey) (hk : k.length = 32) (rest : List Nat) :
    readKey (k ++ rest) = some (k, rest) := by
  have hle : 32 ≤ (k ++ rest).length := by
    simp [List.length_append, hk]
  simp only [readKey, if_pos hle]
  rw [← hk, List.take_left, List.drop_left]

theorem readBytes_encode (d : AccountData) (hd : d.length < 2 ^ 64)
    (rest : List Nat) :
    readBytes (u64le d.length ++ (d ++ rest)) = some (d, rest) := by
  simp only [readBytes, readU64_u64le d.length hd]
  have hle : d.length ≤ (d ++ rest).length := by
    simp [List.length_append]
  simp only [if_pos hle, List.take_left, List.drop_left]

theorem readEntries_encode (m : Mapping)
    (hm : ∀ e ∈ m, e.1.length = 32 ∧ e.2.length < 2 ^ 64) (rest : List Nat) :
    readEntries m.length ((m.map encodeEntry).flatten ++ rest) = some (m, rest) := by
  induction m with
  | nil => simp [readEntries]
  | cons e es ih =>
      obtain ⟨hk, hd⟩ := hm e (List.mem_cons_self e es)
      have hrec := ih (fun e' he' => hm e' (List.mem_cons_of_mem e he'))
      simp only [List.length_cons, List.map_cons, List.flatten_cons,
        List.append_assoc, readEntries, encodeEntry,
        readKey_encode e.1 hk, readBytes_encode e.2 hd, hrec]

theorem readStoreInner_encode (m : Mapping) (hm : WFMapping m) (rest : List Nat) :
    readStoreInner (encodeStoreInner m ++ rest) = some (m, rest) := by
  obtain ⟨hlen, hentries⟩ := hm
  simp only [readStoreInner, encodeStoreInner, List.append_assoc]
  rw [readU64_u64le m.length hlen]
  exact readEntries_encode m hentries rest

/-! ## Resolver lemmas -/

theorem pickAddrs_ok_eq (addrs : List Pubkey) (is : List Nat) (ws : List Pubkey)
    (h : pickAddrs addrs is = .ok ws) :
    ws = is.filterMap (fun i => addrs[i]?) := by
  induction is generalizing ws with
  | nil =>
      simp only [pickAddrs] at h
      cases h
      simp
  | cons i rest ih =>
      simp only [pickAddrs] at h
      cases hget : addrs[i]? with
      | none => rw [hget] at h; cases h
      | some a =>
          rw [hget] at h
          cases hrec : pickAddrs addrs rest with
          | error e => rw [hrec] at h; cases h
          | ok tail =>
              rw [hrec] at h
              cases h
              rw [List.filterMap_cons, hget, ih tail hrec]

theorem pickAddrs_oob (addrs : List Pubkey) (is : List Nat)
    (h : ∃ i ∈ is, addrs.length ≤ i) :
    pickAddrs addrs is = .error .invalidLookupIndex := by
  induction is with
  | nil => simp at h
  | cons i rest ih =>
      obtain ⟨j, hj, hlen⟩ := h
      simp only [pickAddrs]
      cases hget : addrs[i]? with
      | none => rfl
      | some a =>
          have hi : i < addrs.length := (List.getElem?_eq_some_iff.mp hget).choose
          rcases List.mem_cons.mp hj with rfl | hjrest
          · omega
          · rw [ih ⟨j, hjrest, hlen⟩]

theorem pickAddrs_in_range (addrs : List Pubkey) (is : List Nat)
    (h : ∀ i ∈ is, i < addrs.length) :
    pickAddrs addrs is = .ok (is.filterMap (fun i => addrs[i]?)) := by
  induction is with
  | nil => rfl
  | cons i rest ih =>
      have hi : i < addrs.length := h i (List.mem_cons_self i rest)
      cases hget : addrs[i]? with
      | none =>
          have := List.getElem?_eq_none_iff.mp hget
          omega
      | some a =>
          simp only [pickAddrs, hget,
            ih (fun j hj => h j (List.mem_cons_of_mem i hj)),
            List.filterMap_cons]

theorem resolveOne_ok_eq (m : Mapping) (d : Deserializer)
    (l : MessageAddressTableLookup) (ws rs : List Pubkey)
    (h : resolveOne m d l = .ok (ws, rs)) :
    ws = resolvedWritable m d l ∧ rs = resolvedReadonly m d l := by
  cases hk : lookupData m l.account_key with
  | none => simp [resolveOne, hk] at h
  | some data =>
      cases hd : d data with
      | none => simp [resolveOne, hk, hd] at h
      | some addrs =>
          cases hw : pickAddrs addrs l.writable_indexes with
          | error e => simp [resolveOne, hk, hd, hw] at h
          | ok ws' =>
              cases hr : pickAddrs addrs l.readonly_indexes with
              | error e => simp [resolveOne, hk, hd, hw, hr] at h
              | ok rs' =>
                  simp only [resolveOne, hk, hd, hw, hr, Except.ok.injEq,
                    Prod.mk.injEq] at h
                  obtain ⟨hws, hrs⟩ := h
                  subst hws hrs
                  exact ⟨by simp [resolvedWritable, hk, hd, pickAddrs_ok_eq _ _ _ hw],
                         by simp [resolvedReadonly, hk, hd, pickAddrs_ok_eq _ _ _ hr]⟩

theorem load_addresses_go_ok (m : Mapping) (d : Deserializer)
    (lookups : List MessageAddressTableLookup) :
    ∀ (w r : List Pubkey) (out : LoadedAddresses),
      load_addresses_go m d lookups w r = .ok out →
      out.writable = w ++ (lookups.map (resolvedWritable m d)).flatten ∧
      out.readonly = r ++ (lookups.map (resolvedReadonly m d)).flatten := by
  induction lookups with
  | nil =>
      intro w r out h
      simp only [load_addresses_go] at h
      cases h
      simp
  | cons l rest ih =>
      intro w r out h
      simp only [load_addresses_go] at h
      cases hres : resolveOne m d l with
      | error e => rw [hres] at h; cases h
      | ok p =>
          obtain ⟨ws, rs⟩ := p
          rw [hres] at h
          obtain ⟨hws, hrs⟩ := resolveOne_ok_eq m d l ws rs hres
          obtain ⟨h1, h2⟩ := ih (w ++ ws) (r ++ rs) out h
          subst hws hrs
          simp [h1, h2, List.map_cons, List.flatten_cons, List.append_assoc]

theorem load_addresses_go_skip (m : Mapping) (d : Deserializer)
    (pre rest : List MessageAddressTableLookup)
    (hpre : ∀ l ∈ pre, (resolveOne m d l).isOk) :
    ∀ (w r : List Pubkey), ∃ w' r',
      load_addresses_go m d (pre ++ rest) w r = load_addresses_go m d rest w' r' := by
  induction pre with
  | nil => intro w r; exact ⟨w, r, rfl⟩
  | cons l pre' ih =>
      intro w r
      have hl := hpre l (List.mem_cons_self l pre')
      cases hres : resolveOne m d l with
      | error e => rw [hres] at hl; simp [Except.isOk, Except.toBool] at hl
      | ok p =>
          obtain ⟨ws, rs⟩ := p
          simp only [List.cons_append, load_addresses_go, hres]
          exact ih (fun l' hl' => hpre l' (List.mem_cons_of_mem l hl')) (w ++ ws) (r ++ rs)

/-! ## Update lemmas -/

theorem lookupData_insert_table_data (m : Mapping) (k : Pubkey) (d : AccountData)
    (q : Pubkey) :
    lookupData (insert_table_data m k d) q =
      if k = q then some d else lookupData m q := by
  induction m with
  | nil => simp [insert_table_data, lookupData]
  | cons e rest ih =>
      obtain ⟨k', d'⟩ := e
      by_cases hk : k' = k
      · simp only [insert_table_data, if_pos hk, lookupData, hk]
        by_cases hq : k = q
        · simp [hq]
        · simp [hq]
      · by_cases hq : k' = q
        · have hkq : k ≠ q := fun hh => hk (hq.trans hh.symm)
          have hqk : q ≠ k := fun hh => hkq hh.symm
          simp [insert_table_data, hk, lookupData, hq, hkq, hqk]
        · simp [insert_table_data, hk, lookupData, hq, ih]

theorem contains_key_insert_table_data (m : Mapping) (k : Pubkey)
    (d : AccountData) (q : Pubkey) (h : contains_key m q = true) :
    contains_key (insert_table_data m k d) q = true := by
  simp only [contains_key, lookupData_insert_table_data]
  by_cases hk : k = q
  · simp [hk]
  · simpa [hk] using h

theorem contains_key_insertAll_of_contains (F : List (Pubkey × AccountData))
    (m : Mapping) (k : Pubkey) (h : contains_key m k = true) :
    contains_key (insertAll m F) k = true := by
  induction F generalizing m with
  | nil => exact h
  | cons f rest ih =>
      obtain ⟨fk, fd⟩ := f
      exact ih (insert_table_data m fk fd) (contains_key_insert_table_data m fk fd k h)

theorem contains_key_insertAll_of_mem (F : List (Pubkey × AccountData))
    (m : Mapping) (k : Pubkey) (h : k ∈ F.map Prod.fst) :
    contains_key (insertAll m F) k = true := by
  induction F generalizing m with
  | nil => simp at h
  | cons f rest ih =>
      obtain ⟨fk, fd⟩ := f
      rcases (by simpa using h : k = fk ∨ ∃ x, (k, x) ∈ rest) with hk | ⟨x, hx⟩
      · refine contains_key_insertAll_of_contains rest _ k ?_
        simp [contains_key, lookupData_insert_table_data, hk]
      · exact ih (insert_table_data m fk fd)
          (List.mem_map.mpr ⟨(k, x), hx, rfl⟩)

theorem lookupData_insertAll_not_mem (F : List (Pubkey × AccountData))
    (m : Mapping) (k : Pubkey) (h : k ∉ F.map Prod.fst) :
    lookupData (insertAll m F) k = lookupData m k := by
  induction F generalizing m with
  | nil => rfl
  | cons f rest ih =>
      obtain ⟨fk, fd⟩ := f
      have hk : fk ≠ k := by
        intro hkk
        exact h (by simp [hkk])
      have hrest : k ∉ rest.map Prod.fst := fun hmem => h (by simp [hmem])
      rw [insertAll, ih (insert_table_data m fk fd) hrest,
        lookupData_insert_table_data, if_neg hk]

theorem fetch_set_append_all_present (m : Mapping) (pubkeys : List Pubkey)
    (h : ∀ k ∈ pubkeys, contains_key m k = true) :
    fetch_set m pubkeys .append = [] := by
  simp only [fetch_set, List.filter_eq_nil_iff]
  intro k hk
  simp [h k hk]

theorem fetch_set_append_nil_all_present (m : Mapping) (pubkeys : List Pubkey)
    (h : fetch_set m pubkeys .append = []) :
    ∀ k ∈ pubkeys, contains_key m k = true := by
  intro k hk
  have := List.filter_eq_nil_iff.mp h k hk
  simpa using this

theorem update_all_present_noop {ε : Type}
    (fetch : List Pubkey → Except ε (List (Pubkey × AccountData)))
    (m : Mapping) (file : FileContent) (pubkeys : List Pubkey)
    (h : ∀ k ∈ pubkeys, contains_key m k = true) :
    update fetch m file pubkeys .append = ⟨.ok (), m, file, [], false⟩ := by
  simp [update, fetch_set_append_all_present m pubkeys h]

theorem update_store_characterization {ε : Type}
    (fetch : List Pubkey → Except ε (List (Pubkey × AccountData)))
    (m : Mapping) (file : FileContent) (pubkeys : List Pubkey) (mode : UpdateMode)
    (F : List (Pubkey × AccountData))
    (hok : fetch (fetch_set m pubkeys mode) = .ok F) :
    (update fetch m file pubkeys mode).store = m ∨
    ((update fetch m file pubkeys mode).store = insertAll m F ∧
      fetch_set m pubkeys mode ≠ []) := by
  by_cases hne : (fetch_set m pubkeys mode).isEmpty
  · left
    simp [update, hne]
  · right
    refine ⟨?_, by simpa [List.isEmpty_iff] using hne⟩
    simp [update, hne, hok]

/-! ## Concrete example values -/

/-- Example address `A` of the spec's `[A, B, C]` table. -/
def keyA : Pubkey := List.replicate 32 1

/-- Example address `B`. -/
def keyB : Pubkey := List.replicate 32 2

/-- Example address `C`. -/
def keyC : Pubkey := List.replicate 32 3

/-- Example table key `K`. -/
def keyK : Pubkey := List.replicate 32 9

/-- A key present in no example store. -/
def keyMissing : Pubkey := List.replicate 32 8

/-- A key whose example entry holds undeserializable bytes. -/
def keyBad : Pubkey := List.replicate 32 4

/-- Example store: table `K ↦ [A, B, C]` (stored as the byte `[0]`, decoded
by `exDeserialize`), plus an entry whose bytes do not deserialize. -/
def exStore : Mapping := [(keyK, [0]), (keyBad, [7])]

/-- Example deserializer: the bytes `[0]` decode to the table `[A, B, C]`;
all other bytes are structurally invalid. -/
def exDeserialize : Deserializer :=
  fun data => if data = [0] then some [keyA, keyB, keyC] else none

/-! ## Claim theorems -/

/-- C1: a successful resolution returns, in request order, exactly the
table addresses selected by each request's writable indexes in index
order, and likewise for readonly: nothing invented, dropped, deduplicated
or reordered. -/
theorem load_addresses_preserves_order (m : Mapping) (d : Deserializer)
    (lookups : List MessageAddressTableLookup) (out : LoadedAddresses)
    (h : load_addresses m d lookups = .ok out) :
    out.writable = (lookups.map (resolvedWritable m d)).flatten ∧
    out.readonly = (lookups.map (resolvedReadonly m d)).flatten := by
  simpa using load_addresses_go_ok m d lookups [] [] out h

/-- C1 witness: the spec's example — table `[A, B, C]` at `K`,
`writableIndexes [0, 2]`, `readonlyIndexes [1]` — yields
`writable = [A, C]`, `readonly = [B]`, and a two-request resolution
concatenates in request order. -/
theorem load_addresses_preserves_order_witness :
    load_addresses exStore exDeserialize
        [⟨keyK, [0, 2], [1]⟩, ⟨keyK, [1], [0]⟩] =
      .ok ⟨[keyA, keyC, keyB], [keyB, keyA]⟩ ∧
    ([keyA, keyC, keyB] =
        (([⟨keyK, [0, 2], [1]⟩, ⟨keyK, [1], [0]⟩] :
            List MessageAddressTableLookup).map
          (resolvedWritable exStore exDeserialize)).flatten ∧
      [keyB, keyA] =
        (([⟨keyK, [0, 2], [1]⟩, ⟨keyK, [1], [0]⟩] :
            List MessageAddressTableLookup).map
          (resolvedReadonly exStore exDeserialize)).flatten) :=
  ⟨rfl, load_addresses_preserves_order exStore exDeserialize
    [⟨keyK, [0, 2], [1]⟩, ⟨keyK, [1], [0]⟩] ⟨[keyA, keyC, keyB], [keyB, keyA]⟩ rfl⟩

/-- C4 counterexample: a request list whose second request names an absent
key, while the first request (present key) carries an out-of-range index.
Resolution fails with `InvalidLookupIndex`, not `TableNotFound`, so the
claim's unconditional "fails with TableNotFound at the first such request"
is false as stated. -/
theorem table_not_found_counterexample :
    lookupData exStore keyMissing = none ∧
    load_addresses exStore exDeserialize
        [⟨keyK, [5], []⟩, ⟨keyMissing, [], []⟩] =
      .error .invalidLookupIndex ∧
    load_addresses exStore exDeserialize
        [⟨keyK, [5], []⟩, ⟨keyMissing, [], []⟩] ≠
      .error .lookupTableAccountNotFound := by
  refine ⟨rfl, rfl, ?_⟩
  intro hcontra
  rw [show load_addresses exStore exDeserialize
        [⟨keyK, [5], []⟩, ⟨keyMissing, [], []⟩] =
      .error .invalidLookupIndex from rfl] at hcontra
  cases hcontra

/-- C4 (amended): if every request before it resolves successfully, a
request whose target key is absent from the store makes resolution fail
with `TableNotFound`; later requests are not processed and no partial
result is returned. -/
theorem missing_table_fails_not_found (m : Mapping) (d : Deserializer)
    (pre post : List MessageAddressTableLookup) (l : MessageAddressTableLookup)
    (hpre : ∀ l' ∈ pre, (resolveOne m d l').isOk)
    (habs : lookupData m l.account_key = none) :
    load_addresses m d (pre ++ l :: post) = .error .lookupTableAccountNotFound := by
  obtain ⟨w', r', heq⟩ := load_addresses_go_skip m d pre (l :: post) hpre [] []
  unfold load_addresses
  rw [heq]
  simp [load_addresses_go, resolveOne, habs]

/-- C4 witness: after one successfully resolving request, a request for an
absent key fails with `TableNotFound`. -/
theorem missing_table_fails_not_found_witness :
    lookupData exStore keyMissing = none ∧
    load_addresses exStore exDeserialize
        ([⟨keyK, [0], [1]⟩] ++ ⟨keyMissing, [0], []⟩ :: [⟨keyK, [0], []⟩]) =
      .error .lookupTableAccountNotFound :=
  ⟨rfl, missing_table_fails_not_found exStore exDeserialize
    [⟨keyK, [0], [1]⟩] [⟨keyK, [0], []⟩] ⟨keyMissing, [0], []⟩
    (by intro l' hl'; simp at hl'; subst hl'; rfl) rfl⟩

/-- C5: for a request whose table is present and deserializes, reached
after successfully resolving requests: any out-of-range writable index
(checked before the readonly indexes) or readonly index fails the whole
resolution with `IndexOutOfRange`; when every index is in range, the
addresses at the indexed positions are appended, in index order, to the
corresponding accumulating outputs. -/
theorem out_of_range_index_fails (m : Mapping) (d : Deserializer)
    (pre post : List MessageAddressTableLookup) (l : MessageAddressTableLookup)
    (data : AccountData) (addrs : List Pubkey)
    (hpre : ∀ l' ∈ pre, (resolveOne m d l').isOk)
    (hkey : lookupData m l.account_key = some data)
    (hdec : d data = some addrs) :
    ((∃ i ∈ l.writable_indexes, addrs.length ≤ i) →
        load_addresses m d (pre ++ l :: post) = .error .invalidLookupIndex) ∧
    ((∀ i ∈ l.writable_indexes, i < addrs.length) →
      (∃ i ∈ l.readonly_indexes, addrs.length ≤ i) →
        load_addresses m d (pre ++ l :: post) = .error .invalidLookupIndex) ∧
    ((∀ i ∈ l.writable_indexes, i < addrs.length) →
      (∀ i ∈ l.readonly_indexes, i < addrs.length) →
        ∀ (rest : List MessageAddressTableLookup) (w r : List Pubkey),
          load_addresses_go m d (l :: rest) w r =
            load_addresses_go m d rest
              (w ++ l.writable_indexes.filterMap (fun i => addrs[i]?))
              (r ++ l.readonly_indexes.filterMap (fun i => addrs[i]?))) := by
  obtain ⟨w', r', heq⟩ := load_addresses_go_skip m d pre (l :: post) hpre [] []
  refine ⟨fun hbad => ?_, fun hwok hbad => ?_, fun hwok hrok rest w r => ?_⟩
  · unfold load_addresses
    rw [heq]
    simp [load_addresses_go, resolveOne, hkey, hdec, pickAddrs_oob addrs _ hbad]
  · unfold load_addresses
    rw [heq]
    simp [load_addresses_go, resolveOne, hkey, hdec,
      pickAddrs_in_range addrs _ hwok, pickAddrs_oob addrs _ hbad]
  · simp [load_addresses_go, resolveOne, hkey, hdec,
      pickAddrs_in_range addrs _ hwok, pickAddrs_in_range addrs _ hrok]

/-- C5 witness: on the `[A, B, C]` table, `writableIndexes [5]` fails with
`IndexOutOfRange` even though the readonly index is in range; with all
indexes in range the addresses are appended to the outputs. -/
theorem out_of_range_index_fails_witness :
    lookupData exStore keyK = some [0] ∧
    exDeserialize [0] = some [keyA, keyB, keyC] ∧
    load_addresses exStore exDeserialize [⟨keyK, [5], [1]⟩] =
      .error .invalidLookupIndex := by
  refine ⟨rfl, rfl, ?_⟩
  have h := out_of_range_index_fails exStore exDeserialize [] []
    ⟨keyK, [5], [1]⟩ [0] [keyA, keyB, keyC] (by simp) rfl rfl
  exact h.1 ⟨5, by simp, by simp [keyA, keyB, keyC]⟩

/-- C6: a request whose target key is present but whose stored bytes do
not deserialize as a lookup table fails resolution with
`InvalidTableData`, whatever its index lists contain (no index is
consulted), with no partial result. -/
theorem invalid_table_data_fails (m : Mapping) (d : Deserializer)
    (pre post : List MessageAddressTableLookup) (l : MessageAddressTableLookup)
    (data : AccountData)
    (hpre : ∀ l' ∈ pre, (resolveOne m d l').isOk)
    (hkey : lookupData m l.account_key = some data)
    (hdec : d data = none) :
    load_addresses m d (pre ++ l :: post) = .error .invalidAccountData := by
  obtain ⟨w', r', heq⟩ := load_addresses_go_skip m d pre (l :: post) hpre [] []
  unfold load_addresses
  rw [heq]
  simp [load_addresses_go, resolveOne, hkey, hdec]

/-- C6 witness: the entry at `keyBad` holds bytes `[7]`, which do not
deserialize; a request targeting it fails with `InvalidTableData` even
though its index lists contain out-of-range indexes. -/
theorem invalid_table_data_fails_witness :
    lookupData exStore keyBad = some [7] ∧
    exDeserialize [7] = none ∧
    load_addresses exStore exDeserialize
        ([⟨keyK, [0], []⟩] ++ ⟨keyBad, [99], [99]⟩ :: []) =
      .error .invalidAccountData :=
  ⟨rfl, rfl, invalid_table_data_fails exStore exDeserialize
    [⟨keyK, [0], []⟩] [] ⟨keyBad, [99], [99]⟩ [7]
    (by intro l' hl'; simp at hl'; subst hl'; rfl) rfl rfl⟩

/-- C7: an Append-mode update whose keys are all already present — and any
update with an empty key set, in either mode — issues no Data Source
call, performs no save, leaves the mapping and file unchanged, and
returns success; consequently a second `update(K, Append)` right after a
first one whose fetch covered the keys of `K` not already present issues
zero fetch calls and is a no-op. -/
theorem update_append_present_noop {ε : Type}
    (fetch : List Pubkey → Except ε (List (Pubkey × AccountData)))
    (m : Mapping) (file : FileContent) (pubkeys : List Pubkey)
    (h : ∀ k ∈ pubkeys, contains_key m k = true) :
    update fetch m file pubkeys .append = ⟨.ok (), m, file, [], false⟩ ∧
    (∀ mode, update fetch m file ([] : List Pubkey) mode =
      ⟨.ok (), m, file, [], false⟩) ∧
    (∀ (m0 : Mapping) (file0 : FileContent) (K : List Pubkey)
        (F : List (Pubkey × AccountData)),
        fetch (fetch_set m0 K .append) = .ok F →
        (∀ k ∈ K, contains_key m0 k = true ∨ k ∈ F.map Prod.fst) →
        update fetch (update fetch m0 file0 K .append).store
            (update fetch m0 file0 K .append).file K .append =
          ⟨.ok (), (update fetch m0 file0 K .append).store,
            (update fetch m0 file0 K .append).file, [], false⟩) := by
  refine ⟨update_all_present_noop fetch m file pubkeys h, ?_, ?_⟩
  · intro mode
    cases mode <;> rfl
  · intro m0 file0 K F hok hcov
    by_cases hne : (fetch_set m0 K .append).isEmpty
    · have hall : ∀ k ∈ K, contains_key m0 k = true :=
        fetch_set_append_nil_all_present m0 K (List.isEmpty_iff.mp hne)
      rw [update_all_present_noop fetch m0 file0 K hall]
      exact update_all_present_noop fetch m0 file0 K hall
    · have hstore : (update fetch m0 file0 K .append).store = insertAll m0 F := by
        simp [update, hne, hok]
      refine update_all_present_noop fetch _ _ K ?_
      intro k hk
      rw [hstore]
      rcases hcov k hk with hpresent | hmem
      · exact contains_key_insertAll_of_contains F m0 k hpresent
      · exact contains_key_insertAll_of_mem F m0 k hmem

/-- C7 witness: with `keyA` present, `update([keyA], Append)` is a no-op
with zero fetch calls and no save, and so is the second of two successive
`update([keyB], Append)` calls when the first call's fetch returned data
for `keyB`. -/
theorem update_append_present_noop_witness :
    contains_key [(keyA, [9])] keyA = true ∧
    update (fun ks => .ok (ks.map (fun k => (k, ([0] : AccountData)))))
        [(keyA, [9])] [] [keyA] .append =
      ⟨(.ok () : Except Unit Unit), [(keyA, [9])], [], [], false⟩ := by
  refine ⟨rfl, ?_⟩
  have h := update_append_present_noop
    (fun ks => (.ok (ks.map (fun k => (k, ([0] : AccountData)))) :
      Except Unit (List (Pubkey × AccountData))))
    [(keyA, [9])] ([] : FileContent) [keyA]
    (by intro k hk; simp at hk; subst hk; rfl)
  exact h.1

/-- C8: when the Data Source fetch fails, `update` returns that error
unchanged, the in-memory mapping is exactly what it was before the call,
and nothing is written to the backing file (no save occurs). -/
theorem update_fetch_error_propagates {ε : Type}
    (fetch : List Pubkey → Except ε (List (Pubkey × AccountData)))
    (m : Mapping) (file : FileContent) (pubkeys : List Pubkey)
    (mode : UpdateMode) (e : ε)
    (hne : fetch_set m pubkeys mode ≠ [])
    (herr : fetch (fetch_set m pubkeys mode) = .error e) :
    update fetch m file pubkeys mode =
      ⟨.error e, m, file, [fetch_set m pubkeys mode], false⟩ := by
  have hne' : (fetch_set m pubkeys mode).isEmpty = false := by
    simpa [List.isEmpty_iff] using hne
  simp [update, hne', herr]

/-- C8 witness: a failing fetch (error `42`) is propagated unchanged and
the store and file are untouched. -/
theorem update_fetch_error_propagates_witness :
    fetch_set [] [keyA] .append = [keyA] ∧
    update (fun _ => .error 42) [] [7, 7] [keyA] .append =
      ⟨(.error 42 : Except Nat Unit), [], [7, 7], [[keyA]], false⟩ := by
  refine ⟨rfl, ?_⟩
  exact update_fetch_error_propagates (fun _ => .error 42) [] [7, 7] [keyA]
    .append 42 (by intro hc; cases hc) rfl

/-- C9: keys the Data Source omits from a successful fetch result gain no
entry and raise no error, and any entry already stored under such a key —
in either mode — keeps exactly its previous bytes; moreover `update`
never removes a key from the mapping. -/
theorem update_omitted_keys_untouched {ε : Type}
    (fetch : List Pubkey → Except ε (List (Pubkey × AccountData)))
    (m : Mapping) (file : FileContent) (pubkeys : List Pubkey)
    (mode : UpdateMode) (F : List (Pubkey × AccountData))
    (hok : fetch (fetch_set m pubkeys mode) = .ok F) :
    (update fetch m file pubkeys mode).result = .ok () ∧
    (∀ k, k ∉ F.map Prod.fst →
        lookupData (update fetch m file pubkeys mode).store k = lookupData m k) ∧
    (∀ (fetch2 : List Pubkey → Except ε (List (Pubkey × AccountData)))
        (m2 : Mapping) (file2 : FileContent) (K2 : List Pubkey)
        (mode2 : UpdateMode) (k : Pubkey),
        contains_key m2 k = true →
        contains_key (update fetch2 m2 file2 K2 mode2).store k = true) := by
  refine ⟨?_, ?_, ?_⟩
  · by_cases hne : (fetch_set m pubkeys mode).isEmpty <;> simp [update, hne, hok]
  · intro k hk
    by_cases hne : (fetch_set m pubkeys mode).isEmpty
    · simp [update, hne]
    · simp only [update, hne, Bool.false_eq_true, if_false, hok]
      exact lookupData_insertAll_not_mem F m k hk
  · intro fetch2 m2 file2 K2 mode2 k hk
    by_cases hne : (fetch_set m2 K2 mode2).isEmpty
    · simpa [update, hne] using hk
    · cases hres : fetch2 (fetch_set m2 K2 mode2) with
      | error e => simpa [update, hne, hres] using hk
      | ok F2 =>
          simp only [update, hne, Bool.false_eq_true, if_false, hres]
          exact contains_key_insertAll_of_contains F2 m2 k hk

/-- C9 witness: an Overwrite-mode update requesting `keyA` and `keyB`
whose fetch returns only `keyA` keeps `keyB`'s stored bytes untouched,
adds nothing under the omitted absent key, and succeeds. -/
theorem update_omitted_keys_untouched_witness :
    fetch_set [(keyB, [7])] [keyA, keyB] .overwrite = [keyA, keyB] ∧
    (update (fun _ => (.ok [(keyA, [1])] : Except Unit (List (Pubkey × AccountData))))
        [(keyB, [7])] [] [keyA, keyB] .overwrite).result = .ok () ∧
    lookupData (update (fun _ => (.ok [(keyA, [1])] : Except Unit (List (Pubkey × AccountData))))
        [(keyB, [7])] [] [keyA, keyB] .overwrite).store keyB = some [7] := by
  refine ⟨rfl, ?_, ?_⟩
  · exact (update_omitted_keys_untouched _ [(keyB, [7])] [] [keyA, keyB]
      .overwrite [(keyA, [1])] rfl).1
  · have h := (update_omitted_keys_untouched
      (fun _ => (.ok [(keyA, [1])] : Except Unit (List (Pubkey × AccountData))))
      [(keyB, [7])] [] [keyA, keyB] .overwrite [(keyA, [1])] rfl).2.1 keyB
      (by simp [keyA, keyB])
    rw [h]
    rfl

/-- C2: saving a mapping and loading the same path back yields exactly
that mapping (same keys, byte-identical data), whatever the backing file
contained before the save — bincode stops reading at the end of the
encoded value, so stale trailing bytes left by a previously saved, larger
mapping are ignored. -/
theorem save_then_load_roundtrip (m : Mapping) (hm : WFMapping m)
    (old : FileContent) :
    load_or_create (some (save_to_path m old)) = .ok (m, save_to_path m old) := by
  have h := readStoreInner_encode m hm (old.drop (encodeStoreInner m).length)
  simp [load_or_create, load_from_path, save_to_path, h]

/-- C2 witness: a one-entry mapping saved over a longer previous file
content round-trips exactly. -/
theorem save_then_load_roundtrip_witness :
    load_or_create (some (save_to_path [(keyA, [1, 2, 3])] (List.replicate 90 5))) =
      .ok ([(keyA, [1, 2, 3])], save_to_path [(keyA, [1, 2, 3])] (List.replicate 90 5)) :=
  save_then_load_roundtrip [(keyA, [1, 2, 3])]
    ⟨by decide, by decide⟩ (List.replicate 90 5)

/-- C3 (code bug): `save_to_path` opens the backing file for writing
without truncating it, so saving a mapping whose serialization is shorter
than the file's previous content leaves the old content's tail in place:
the file's content afterwards is not the serialization of the mapping. -/
theorem save_leaves_stale_suffix :
    save_to_path [(keyA, [5])]
        (save_to_path [(keyA, [1, 2, 3, 4, 5, 6, 7, 8, 9])] new_file_content) ≠
      encodeStoreInner [(keyA, [5])] := by decide

/-- C10: `load_or_create` on a nonexistent path creates a zero-byte file
and an empty mapping; without an intervening save, a second
`load_or_create` on that file fails with a deserialization error instead
of returning the empty store. -/
theorem fresh_file_reload_fails :
    load_or_create none = .ok ([], new_file_content) ∧
    load_or_create (some new_file_content) = .error .storeCorrupt :=
  ⟨rfl, rfl⟩

end AltStore
